import Mathlib

/-!
Shallow embedding of the RFID study task generator (`src/main.py`).

The program draws randomized "pick order" tasks: for each order it selects,
per rack, a set of distinct source bins (numpy `choice` with
`replace=False`), assigns each selected bin an item count drawn from
`{1,2,3}`, sorts the resulting entries by tag and asserts that tags are
unique and that no rack contributes more than `MAX_ORDERS_PER_RACK`
entries.

Randomness is modelled by threading an explicit tape of natural numbers
(the stream produced by the process-wide generator seeded once at start):
every random draw consumes tape values deterministically.  A draw of one
element from a nonempty list of `k` candidates reads one value `v` and
picks index `v % k`; a without-replacement draw of `n` elements repeats
this on the shrinking pool, which fails (as numpy raises) exactly when the
pool has fewer than `n` elements.  Python `assert` failures and numpy
errors are modelled by `Option.none`: a function returns `some` exactly
when the Python function returns normally.  Python's stable `list.sort`
with a string key is modelled by `List.insertionSort` (stable) over the
lexicographic comparison of the tag's characters, which is exactly
Python 2 string comparison for these all-ASCII tags.
-/

namespace RFID

/-- Version string of the JSON files (`VERSION` in `src/main.py`). -/
def VERSION : String := "1.2"

/-- Display capacity of the HUD client (`MAX_ORDERS_PER_RACK`). -/
def MAX_ORDERS_PER_RACK : Nat := 6

/-- Names of the study methods (`STUDY_METHODS`). -/
def STUDY_METHODS : List String :=
  ["pick-by-light_button", "pick-by-hud_rfid", "pick-by-paper_none", "pick-by-paper_barcode"]

/-- Number of training tasks (`NUM_TRAINING_TASKS`). -/
def NUM_TRAINING_TASKS : Nat := 5

/-- Number of testing tasks (`NUM_TESTING_TASKS`). -/
def NUM_TESTING_TASKS : Nat := 10

/-- A source bin: rack label, row number (1..4), column number (1..3)
(`class Bin` in `src/main.py`). -/
structure Bin where
  rack : Char
  row_number : Nat
  column_number : Nat
deriving DecidableEq, Repr, Inhabited

/-- The bin's tag, `"%s%s%s" % (rack, row_number, column_number)`. -/
def Bin.tag (b : Bin) : String :=
  String.mk [b.rack] ++ toString b.row_number ++ toString b.column_number

/-- `generate_bins`: all bins of the layout, racks A and B, rows 1..4,
columns 1..3, in generation order. -/
def generate_bins : List Bin :=
  (['A', 'B'].map (fun rack =>
    ((List.range' 1 4).map (fun row_number =>
      (List.range' 1 3).map (fun column_number =>
        Bin.mk rack row_number column_number))).flatten)).flatten

/-- `BINS`, the process-wide bin universe. -/
def BINS : List Bin := generate_bins

/-- The random tape: the stream of draws produced by the seeded generator.
Reading past the end yields 0 (an infinite stream padded with zeros). -/
abbrev Tape := List Nat

/-- One draw from a fixed nonempty candidate list, as
`numpy.random.choice(a=vals, size=None, ...)`: reads one tape value and
selects a candidate by its index modulo the number of candidates.  The
default `dflt` is never used when `vals` is nonempty. -/
def choice_one (vals : List Nat) (dflt : Nat) (t : Tape) : Nat × Tape :=
  (vals.getD (t.headD 0 % vals.length) dflt, t.tail)

/-- A without-replacement draw of `n` elements from `pool`, as
`numpy.random.choice(a=pool, size=n, replace=False)`: repeatedly pick an
index into the remaining pool from the tape and remove the chosen element.
Fails (numpy raises `ValueError`) exactly when fewer than `n` elements
remain. -/
def choice_no_replace {α : Type} [Inhabited α] : List α → Nat → Tape → Option (List α × Tape)
  | _, 0, t => some ([], t)
  | pool, n + 1, t =>
    if pool.length = 0 then none
    else
      match choice_no_replace (pool.eraseIdx (t.headD 0 % pool.length)) n t.tail with
      | none => none
      | some (bs, t₂) => some (pool.getD (t.headD 0 % pool.length) default :: bs, t₂)

/-- One entry of an order's source-bin list: the dictionary
`{'binTag': ..., 'numItems': ...}` built in `get_source_bins_for_order`. -/
structure SourceBin where
  binTag : String
  numItems : Nat
deriving DecidableEq, Repr

/-- Lexicographic comparison of character lists (Python 2 string
comparison on the all-ASCII bin tags). -/
def lex_le : List Char → List Char → Bool
  | [], _ => true
  | _ :: _, [] => false
  | a :: as, b :: bs => if a < b then true else if b < a then false else lex_le as bs

/-- The key comparison used by `source_bins.sort(key=lambda sb: sb['binTag'])`. -/
def str_le (a b : String) : Bool := lex_le a.data b.data

/-- Order of source-bin entries by tag, as sorted by
`source_bins.sort(key=lambda sb: sb['binTag'])`. -/
def sb_le (a b : SourceBin) : Prop := str_le a.binTag b.binTag = true

instance : DecidableRel sb_le :=
  fun a b => inferInstanceAs (Decidable (str_le a.binTag b.binTag = true))

/-- For each selected bin, draw its item count from `{1,2,3}`
(`numpy.random.choice(a=[1,2,3], size=None, replace=False, p=[...])`) and
build the `{'binTag', 'numItems'}` entry. -/
def assign_items : List Bin → Tape → List SourceBin × Tape
  | [], t => ([], t)
  | b :: bs, t =>
    let q := choice_one [1, 2, 3] 1 t
    let rest := assign_items bs q.2
    (⟨b.tag, q.1⟩ :: rest.1, rest.2)

/-- The body of one iteration of the rack loop in
`get_source_bins_for_order`: filter `BINS` to the rack, draw
`num_source_bins` distinct bins, and assign each an item count. -/
def sample_rack_bins (rack : Char) (num_source_bins : Nat) (t : Tape) :
    Option (List SourceBin × Tape) :=
  match choice_no_replace (BINS.filter (fun b => b.rack == rack)) num_source_bins t with
  | none => none
  | some (bs, t₁) => some (assign_items bs t₁)

/-- The rack loop of `get_source_bins_for_order` (lines 96-116): process
each `(rack, count)` pair of the policy in iteration order, appending the
produced entries. -/
def build_source_bins : List (Char × Nat) → Tape → Option (List SourceBin × Tape)
  | [], t => some ([], t)
  | (rack, n) :: rest, t =>
    match sample_rack_bins rack n t with
    | none => none
    | some (es, t₁) =>
      match build_source_bins rest t₁ with
      | none => none
      | some (es', t₂) => some (es ++ es', t₂)

/-- `get_source_bins_for_order(racks_and_num_source_bins)`: run the rack
loop, sort the entries by tag, then perform the two asserts — no duplicated
tag (`len(set(tags)) == len(source_bins)`), and for every rack of the
policy at most `MAX_ORDERS_PER_RACK` entries whose tag starts with that
rack's label.  An assert failure returns `none` (the Python function
raises and returns nothing). -/
def get_source_bins_for_order (racks_and_num_source_bins : List (Char × Nat)) (t : Tape) :
    Option (List SourceBin × Tape) :=
  match build_source_bins racks_and_num_source_bins t with
  | none => none
  | some (source_bins, t₁) =>
    let sorted := source_bins.insertionSort sb_le
    if (sorted.map (fun sb => sb.binTag)).dedup.length = sorted.length then
      if racks_and_num_source_bins.all
          (fun rn => (sorted.countP (fun sb => sb.binTag.front == rn.1)) ≤ MAX_ORDERS_PER_RACK) then
        some (sorted, t₁)
      else none
    else none

/-- One order: sequential id, source-bin list, receiving-bin tag (the
dictionary built in `get_orders_for_task`). -/
structure Order where
  orderId : Nat
  sourceBins : List SourceBin
  receivingBinTag : String
deriving DecidableEq, Repr

/-- The fixed pool of receiving bins in `get_orders_for_task`. -/
def receiving_bin_tags : List String := ["C11", "C12", "C13"]

/-- One iteration of the loop in `get_orders_for_task`: draw the per-rack
counts for racks A and B from `{4,5,6}` and invoke the sampler. -/
def make_order (i : Nat) (receiving_bin_tag : String) (t : Tape) : Option (Order × Tape) :=
  let cA := choice_one [4, 5, 6] 4 t
  let cB := choice_one [4, 5, 6] 4 cA.2
  match get_source_bins_for_order [('A', cA.1), ('B', cB.1)] cB.2 with
  | none => none
  | some (sbs, t₃) => some (⟨i + 1, sbs, receiving_bin_tag⟩, t₃)

/-- The enumerated loop of `get_orders_for_task` over the receiving-bin
tags, starting at index `i`. -/
def make_orders : Nat → List String → Tape → Option (List Order × Tape)
  | _, [], t => some ([], t)
  | i, rtag :: rest, t =>
    match make_order i rtag t with
    | none => none
    | some (o, t₁) =>
      match make_orders (i + 1) rest t₁ with
      | none => none
      | some (os, t₂) => some (o :: os, t₂)

/-- `get_orders_for_task()`: one order per receiving-bin tag, ids 1..3. -/
def get_orders_for_task (t : Tape) : Option (List Order × Tape) :=
  make_orders 0 receiving_bin_tags t

/-- One task: sequential id and its orders. -/
structure Task where
  taskId : Nat
  orders : List Order
deriving DecidableEq, Repr, Inhabited

/-- One `while` loop of `get_tasks_for_method`: build `count` tasks with
ids `task_id, task_id+1, ...`. -/
def build_tasks : Nat → Nat → Tape → Option (List Task × Tape)
  | _, 0, t => some ([], t)
  | task_id, count + 1, t =>
    match get_orders_for_task t with
    | none => none
    | some (os, t₁) =>
      match build_tasks (task_id + 1) count t₁ with
      | none => none
      | some (ts, t₂) => some (⟨task_id, os⟩ :: ts, t₂)

/-- `get_tasks_for_method(num_training_tasks, num_testing_tasks)`: build
the training tasks (ids from 1) then the testing tasks (ids continuing),
then assert both lengths (lines 181-182). -/
def get_tasks_for_method (num_training_tasks num_testing_tasks : Nat) (t : Tape) :
    Option ((List Task × List Task) × Tape) :=
  match build_tasks 1 num_training_tasks t with
  | none => none
  | some (training_tasks, t₁) =>
    match build_tasks (num_training_tasks + 1) num_testing_tasks t₁ with
    | none => none
    | some (testing_tasks, t₂) =>
      if training_tasks.length = num_training_tasks then
        if testing_tasks.length = num_testing_tasks then
          some ((training_tasks, testing_tasks), t₂)
        else none
      else none

/-- `numpy.random.shuffle(l)`: a tape-driven Fisher-Yates permutation of
the list (drawing all elements without replacement never fails). -/
def shuffleT {α : Type} [Inhabited α] (l : List α) (t : Tape) : List α × Tape :=
  match choice_no_replace l l.length t with
  | some r => r
  | none => (l, t)

/-- The per-method loop of `__main__` (lines 239-252): for each method,
shuffle the training and testing lists in place and record what is written
for that method. -/
def shuffle_rounds : Nat → List Task → List Task → Tape → List (List Task × List Task) × Tape
  | 0, _, _, t => ([], t)
  | k + 1, training_tasks, testing_tasks, t =>
    let tr := shuffleT training_tasks t
    let te := shuffleT testing_tasks tr.2
    let rest := shuffle_rounds k tr.1 te.1 te.2
    ((tr.1, te.1) :: rest.1, rest.2)

/-- The `__main__` block as a function of the seeded generator's stream:
generate the master training/testing lists, then produce the shuffled pair
written for each study method.  File writing and printing are out of
scope. -/
def main_run (t : Tape) :
    Option ((List Task × List Task) × List (List Task × List Task)) :=
  match get_tasks_for_method NUM_TRAINING_TASKS NUM_TESTING_TASKS t with
  | none => none
  | some ((training_tasks, testing_tasks), t₁) =>
    some ((training_tasks, testing_tasks),
      (shuffle_rounds STUDY_METHODS.length training_tasks testing_tasks t₁).1)

/-- Modelled from the spec: the with-replacement variant of the source-bin
sampler (spec section 4.2, "Algorithm (with-replacement variant)"), which
other versions of this program implement but `src/main.py` does not (it
implements the without-replacement variant).  Given the combined multiset
of raw tag draws across all racks of one call, aggregate: one entry per
distinct tag whose `numItems` is the number of times that tag was drawn,
sorted ascending by tag. -/
def aggregate_with_replacement_draws (draws : List String) : List SourceBin :=
  (draws.dedup.map (fun tg => SourceBin.mk tg (draws.count tg))).insertionSort sb_le

/-- The source-bin list every order receives on the all-zero tape (each
index draw picks position 0, each count draw picks 4, each item draw picks
1); recorded as a concrete value for use in concrete instances. -/
def entries_tape0 : List SourceBin :=
  [⟨"A11", 1⟩, ⟨"A12", 1⟩, ⟨"A13", 1⟩, ⟨"A21", 1⟩,
   ⟨"B11", 1⟩, ⟨"B12", 1⟩, ⟨"B13", 1⟩, ⟨"B21", 1⟩]

/-- The order list every task receives on the all-zero tape. -/
def orders_tape0 : List Order :=
  [⟨1, entries_tape0, "C11"⟩, ⟨2, entries_tape0, "C12"⟩, ⟨3, entries_tape0, "C13"⟩]

end RFID

namespace RFID

/-! ### Basic facts about the bin universe and the tag order -/

theorem BINS_nodup : BINS.Nodup := by decide

theorem BINS_tags_nodup : (BINS.map Bin.tag).Nodup := by decide

theorem tag_front_eq_rack : ∀ b ∈ BINS, b.tag.front = b.rack := by decide

theorem lex_le_total (x y : List Char) : lex_le x y = true ∨ lex_le y x = true := by
  induction x generalizing y with
  | nil => exact Or.inl rfl
  | cons a as ih =>
    cases y with
    | nil => exact Or.inr rfl
    | cons b bs =>
      rcases lt_trichotomy a b with h | h | h
      · exact Or.inl (by simp [lex_le, if_pos h])
      · subst h
        rcases ih bs with h' | h'
        · exact Or.inl (by simp [lex_le, lt_irrefl, h'])
        · exact Or.inr (by simp [lex_le, lt_irrefl, h'])
      · exact Or.inr (by simp [lex_le, if_pos h])

theorem lex_le_trans {x y z : List Char} (h₁ : lex_le x y = true) (h₂ : lex_le y z = true) :
    lex_le x z = true := by
  induction x generalizing y z with
  | nil => rfl
  | cons a as ih =>
    cases y with
    | nil => simp [lex_le] at h₁
    | cons b bs =>
      cases z with
      | nil => simp [lex_le] at h₂
      | cons c cs =>
        rcases lt_trichotomy a b with hab | hab | hab
        · rcases lt_trichotomy b c with hbc | hbc | hbc
          · simp [lex_le, if_pos (lt_trans hab hbc)]
          · subst hbc
            simp [lex_le, if_pos hab]
          · simp [lex_le, if_neg (lt_asymm hbc), if_pos hbc] at h₂
        · subst hab
          rcases lt_trichotomy a c with hac | hac | hac
          · simp [lex_le, if_pos hac]
          · subst hac
            simp only [lex_le, if_neg (lt_irrefl a)] at h₁ h₂ ⊢
            exact ih h₁ h₂
          · simp [lex_le, if_neg (lt_asymm hac), if_pos hac] at h₂
        · simp [lex_le, if_neg (lt_asymm hab), if_pos hab] at h₁

instance : IsTotal SourceBin sb_le :=
  ⟨fun a b => lex_le_total a.binTag.data b.binTag.data⟩

instance : IsTrans SourceBin sb_le :=
  ⟨fun _ _ _ h₁ h₂ => lex_le_trans h₁ h₂⟩

theorem lex_le_of_not_lex : ∀ {x y : List Char}, ¬ List.Lex (· < ·) y x → lex_le x y = true := by
  intro x
  induction x with
  | nil => intro y _; rfl
  | cons a as ih =>
    intro y hn
    cases y with
    | nil => exact absurd (List.Lex.nil) hn
    | cons b bs =>
      rcases lt_trichotomy a b with hab | hab | hab
      · simp [lex_le, if_pos hab]
      · subst hab
        simp only [lex_le, if_neg (lt_irrefl a)]
        exact ih (fun hl => hn (List.Lex.cons hl))
      · exact absurd (List.Lex.rel hab) hn

theorem not_lex_of_lex_le : ∀ {x y : List Char}, lex_le x y = true → ¬ List.Lex (· < ·) y x := by
  intro x y h hlt
  induction hlt with
  | nil =>
    simp [lex_le] at h
  | cons hl ih =>
    rename_i c l₁ l₂
    simp only [lex_le, if_neg (lt_irrefl c)] at h
    exact ih h
  | rel hr =>
    simp [lex_le, if_neg (lt_asymm hr), if_pos hr] at h

theorem lex_le_iff_not_lex (x y : List Char) :
    lex_le x y = true ↔ ¬ List.Lex (· < ·) y x :=
  ⟨not_lex_of_lex_le, lex_le_of_not_lex⟩

theorem str_le_iff_le {a b : String} : str_le a b = true ↔ a ≤ b := by
  rw [String.le_iff_toList_le, ← not_lt]
  exact lex_le_iff_not_lex a.data b.data

end RFID

namespace RFID

/-! ### Properties of the without-replacement draw -/

theorem choice_no_replace_eq_none {α : Type} [Inhabited α] :
    ∀ (n : Nat) (pool : List α) (t : Tape), pool.length < n →
      choice_no_replace pool n t = none := by
  intro n
  induction n with
  | zero => intro pool t h; omega
  | succ n ih =>
    intro pool t h
    simp only [choice_no_replace]
    by_cases hp : pool.length = 0
    · rw [if_pos hp]
    · rw [if_neg hp]
      have hlt : (pool.eraseIdx (t.headD 0 % pool.length)).length < n := by
        rw [List.length_eraseIdx, if_pos (Nat.mod_lt _ (Nat.pos_of_ne_zero hp))]
        omega
      rw [ih _ _ hlt]

theorem choice_no_replace_spec {α : Type} [Inhabited α] :
    ∀ (n : Nat) (pool : List α) (t : Tape) (bs : List α) (t' : Tape),
      choice_no_replace pool n t = some (bs, t') →
      bs.length = n ∧ (∀ b ∈ bs, b ∈ pool) ∧ (pool.Nodup → bs.Nodup) := by
  intro n
  induction n with
  | zero =>
    intro pool t bs t' h
    simp only [choice_no_replace] at h
    cases h
    exact ⟨rfl, by simp, fun _ => List.nodup_nil⟩
  | succ n ih =>
    intro pool t bs t' h
    simp only [choice_no_replace] at h
    by_cases hp : pool.length = 0
    · rw [if_pos hp] at h; cases h
    · rw [if_neg hp] at h
      have hilt : t.headD 0 % pool.length < pool.length :=
        Nat.mod_lt _ (Nat.pos_of_ne_zero hp)
      cases hrec : choice_no_replace (pool.eraseIdx (t.headD 0 % pool.length)) n t.tail with
      | none => rw [hrec] at h; cases h
      | some r =>
        obtain ⟨bs', t₂⟩ := r
        rw [hrec] at h
        cases h
        obtain ⟨hlen, hmem, hnd⟩ := ih _ _ _ _ hrec
        refine ⟨by simp [hlen], ?_, ?_⟩
        · intro b hb
          rcases List.mem_cons.mp hb with hb | hb
          · subst hb
            rw [List.getD_eq_getElem _ _ hilt]
            exact List.getElem_mem hilt
          · exact (List.eraseIdx_sublist pool _).subset (hmem b hb)
        · intro hpool
          refine List.nodup_cons.mpr ⟨?_, hnd ((List.Nodup.eraseIdx _) hpool)⟩
          intro hmem2
          have hin : pool.getD (t.headD 0 % pool.length) default ∈
              pool.eraseIdx (t.headD 0 % pool.length) := hmem _ hmem2
          rw [List.getD_eq_getElem _ _ hilt] at hin
          obtain ⟨j, hj, hne, heq⟩ := List.mem_eraseIdx_iff_getElem.mp hin
          exact hne ((List.Nodup.getElem_inj_iff hpool).mp heq)

/-! ### Properties of the per-rack sampling step -/

theorem assign_items_map_tag : ∀ (bs : List Bin) (t : Tape),
    (assign_items bs t).1.map SourceBin.binTag = bs.map Bin.tag := by
  intro bs
  induction bs with
  | nil => intro t; rfl
  | cons b bs ih => intro t; simp [assign_items, ih]

theorem sample_rack_bins_spec {rack : Char} {n : Nat} {t : Tape} {es : List SourceBin} {t₁ : Tape}
    (h : sample_rack_bins rack n t = some (es, t₁)) :
    es.length = n ∧ (es.map SourceBin.binTag).Nodup ∧ ∀ e ∈ es, e.binTag.front = rack := by
  unfold sample_rack_bins at h
  cases hc : choice_no_replace (BINS.filter (fun b => b.rack == rack)) n t with
  | none => rw [hc] at h; cases h
  | some r =>
    obtain ⟨bs, t₂⟩ := r
    rw [hc] at h
    have hpair : assign_items bs t₂ = (es, t₁) := by injection h
    have hes : es = (assign_items bs t₂).1 := by rw [hpair]
    obtain ⟨hlen, hmem, hnd⟩ := choice_no_replace_spec _ _ _ _ _ hc
    have hmem' : ∀ b ∈ bs, b ∈ BINS := fun b hb => (List.mem_filter.mp (hmem b hb)).1
    have htags : es.map SourceBin.binTag = bs.map Bin.tag := by
      rw [hes, assign_items_map_tag]
    refine ⟨?_, ?_, ?_⟩
    · have := congrArg List.length htags
      simpa [hlen] using this
    · rw [htags]
      refine List.Nodup.map_on ?_ (hnd (List.Nodup.filter _ BINS_nodup))
      intro x hx y hy hxy
      exact List.inj_on_of_nodup_map BINS_tags_nodup (hmem' x hx) (hmem' y hy) hxy
    · intro e he
      have : e.binTag ∈ bs.map Bin.tag := by
        rw [← htags]
        exact List.mem_map.mpr ⟨e, he, rfl⟩
      obtain ⟨b, hb, htag⟩ := List.mem_map.mp this
      have hrk : b.rack = rack := by
        have := (List.mem_filter.mp (hmem b hb)).2
        simpa using this
      rw [← htag, tag_front_eq_rack b (hmem' b hb), hrk]

end RFID

namespace RFID

/-! ### Properties of the rack loop -/

theorem build_source_bins_eq_none {policy : List (Char × Nat)} {rack : Char} {n : Nat}
    (hmem : (rack, n) ∈ policy)
    (hlt : (BINS.filter (fun b => b.rack == rack)).length < n) :
    ∀ t, build_source_bins policy t = none := by
  induction policy with
  | nil => cases hmem
  | cons p rest ih =>
    intro t
    obtain ⟨r, m⟩ := p
    rcases List.mem_cons.mp hmem with heq | hmem'
    · injection heq with h1 h2
      subst h1
      subst h2
      simp only [build_source_bins]
      have hs : sample_rack_bins rack n t = none := by
        unfold sample_rack_bins
        rw [choice_no_replace_eq_none _ _ _ hlt]
      rw [hs]
    · simp only [build_source_bins]
      cases hs : sample_rack_bins r m t with
      | none => rfl
      | some rr =>
        obtain ⟨es, t₁⟩ := rr
        simp only []
        rw [ih hmem' t₁]

theorem build_source_bins_front {policy : List (Char × Nat)} :
    ∀ {t es t'}, build_source_bins policy t = some (es, t') →
      ∀ e ∈ es, ∃ rn ∈ policy, e.binTag.front = rn.1 := by
  induction policy with
  | nil =>
    intro t es t' h e he
    cases h
    cases he
  | cons p rest ih =>
    intro t es t' h e he
    obtain ⟨r, m⟩ := p
    simp only [build_source_bins] at h
    cases hs : sample_rack_bins r m t with
    | none => rw [hs] at h; cases h
    | some rr =>
      obtain ⟨es₁, t₁⟩ := rr
      rw [hs] at h
      simp only [] at h
      cases hb : build_source_bins rest t₁ with
      | none => rw [hb] at h; cases h
      | some rr₂ =>
        obtain ⟨es₂, t₂⟩ := rr₂
        rw [hb] at h
        cases h
        rcases List.mem_append.mp he with he₁ | he₂
        · exact ⟨(r, m), List.mem_cons_self _ _, (sample_rack_bins_spec hs).2.2 e he₁⟩
        · obtain ⟨rn, hrn, hfr⟩ := ih hb e he₂
          exact ⟨rn, List.mem_cons_of_mem _ hrn, hfr⟩

theorem build_source_bins_tags_nodup : ∀ {policy : List (Char × Nat)},
    (policy.map Prod.fst).Nodup →
    ∀ {t es t'}, build_source_bins policy t = some (es, t') →
      (es.map SourceBin.binTag).Nodup := by
  intro policy
  induction policy with
  | nil =>
    intro _ t es t' h
    cases h
    exact List.nodup_nil
  | cons p rest ih =>
    intro hk t es t' h
    obtain ⟨r, m⟩ := p
    have hk' : r ∉ rest.map Prod.fst ∧ (rest.map Prod.fst).Nodup := List.nodup_cons.mp hk
    simp only [build_source_bins] at h
    cases hs : sample_rack_bins r m t with
    | none => rw [hs] at h; cases h
    | some rr =>
      obtain ⟨es₁, t₁⟩ := rr
      rw [hs] at h
      simp only [] at h
      cases hb : build_source_bins rest t₁ with
      | none => rw [hb] at h; cases h
      | some rr₂ =>
        obtain ⟨es₂, t₂⟩ := rr₂
        rw [hb] at h
        cases h
        rw [List.map_append]
        refine List.Nodup.append ((sample_rack_bins_spec hs).2.1) (ih hk'.2 hb) ?_
        intro tg htg₁ htg₂
        obtain ⟨e₁, he₁, rfl⟩ := List.mem_map.mp htg₁
        obtain ⟨e₂, he₂, heq⟩ := List.mem_map.mp htg₂
        have hf₁ : e₁.binTag.front = r := (sample_rack_bins_spec hs).2.2 e₁ he₁
        obtain ⟨rn, hrn, hf₂⟩ := build_source_bins_front hb e₂ he₂
        have : rn.1 = r := by rw [← hf₂, heq, hf₁]
        exact hk'.1 (this ▸ List.mem_map.mpr ⟨rn, hrn, rfl⟩)

/-! ### Unfolding the sampler's result -/

theorem get_source_bins_some_elim {policy : List (Char × Nat)} {t : Tape}
    {es : List SourceBin} {t' : Tape}
    (h : get_source_bins_for_order policy t = some (es, t')) :
    ∃ sbs, build_source_bins policy t = some (sbs, t') ∧
      es = sbs.insertionSort sb_le ∧
      (es.map (fun sb => sb.binTag)).dedup.length = es.length ∧
      policy.all
        (fun rn => (es.countP (fun sb => sb.binTag.front == rn.1)) ≤ MAX_ORDERS_PER_RACK)
        = true := by
  simp only [get_source_bins_for_order] at h
  cases hb : build_source_bins policy t with
  | none => rw [hb] at h; cases h
  | some rr =>
    obtain ⟨sbs, t₁⟩ := rr
    rw [hb] at h
    simp only [] at h
    by_cases h₁ :
        ((sbs.insertionSort sb_le).map (fun sb => sb.binTag)).dedup.length
          = (sbs.insertionSort sb_le).length
    · rw [if_pos h₁] at h
      by_cases h₂ : policy.all
          (fun rn => ((sbs.insertionSort sb_le).countP
            (fun sb => sb.binTag.front == rn.1)) ≤ MAX_ORDERS_PER_RACK) = true
      · rw [if_pos h₂] at h
        cases h
        exact ⟨sbs, rfl, rfl, h₁, h₂⟩
      · rw [if_neg h₂] at h
        cases h
    · rw [if_neg h₁] at h
      cases h

end RFID

namespace RFID

/-! ### The sampler succeeds for the counts the program actually draws -/

theorem choice_no_replace_isSome {α : Type} [Inhabited α] :
    ∀ (n : Nat) (pool : List α) (t : Tape), n ≤ pool.length →
      ∃ bs t', choice_no_replace pool n t = some (bs, t') := by
  intro n
  induction n with
  | zero => intro pool t _; exact ⟨[], t, rfl⟩
  | succ n ih =>
    intro pool t h
    have hp : ¬ pool.length = 0 := by omega
    have hle : n ≤ (pool.eraseIdx (t.headD 0 % pool.length)).length := by
      rw [List.length_eraseIdx, if_pos (Nat.mod_lt _ (Nat.pos_of_ne_zero hp))]
      omega
    obtain ⟨bs, t', hrec⟩ := ih _ t.tail hle
    refine ⟨pool.getD (t.headD 0 % pool.length) default :: bs, t', ?_⟩
    simp only [choice_no_replace]
    rw [if_neg hp, hrec]

theorem sample_rack_bins_isSome (rack : Char) (n : Nat) (t : Tape)
    (h : n ≤ (BINS.filter (fun b => b.rack == rack)).length) :
    ∃ es t₁, sample_rack_bins rack n t = some (es, t₁) := by
  obtain ⟨bs, t', hc⟩ := choice_no_replace_isSome n _ t h
  refine ⟨(assign_items bs t').1, (assign_items bs t').2, ?_⟩
  unfold sample_rack_bins
  rw [hc]

theorem choice_one_456_le (t : Tape) : (choice_one [4, 5, 6] 4 t).1 ≤ 6 := by
  have h3 : t.headD 0 % 3 = 0 ∨ t.headD 0 % 3 = 1 ∨ t.headD 0 % 3 = 2 := by omega
  show [4, 5, 6].getD (t.headD 0 % 3) 4 ≤ 6
  rcases h3 with h3 | h3 | h3 <;> rw [h3] <;> decide

theorem get_source_bins_AB_some (cA cB : Nat) (hA : cA ≤ 6) (hB : cB ≤ 6) (t : Tape) :
    ∃ es t', get_source_bins_for_order [('A', cA), ('B', cB)] t = some (es, t') := by
  have hlenA : (BINS.filter (fun b => b.rack == 'A')).length = 12 := by decide
  have hlenB : (BINS.filter (fun b => b.rack == 'B')).length = 12 := by decide
  obtain ⟨esA, t₁, hsA⟩ := sample_rack_bins_isSome 'A' cA t (by omega)
  obtain ⟨esB, t₂, hsB⟩ := sample_rack_bins_isSome 'B' cB t₁ (by omega)
  have hbuild : build_source_bins [('A', cA), ('B', cB)] t = some (esA ++ (esB ++ []), t₂) := by
    simp only [build_source_bins]
    rw [hsA]
    simp only []
    rw [hsB]
  obtain ⟨hlA, _, hfA⟩ := sample_rack_bins_spec hsA
  obtain ⟨hlB, _, hfB⟩ := sample_rack_bins_spec hsB
  have hnd : ((esA ++ (esB ++ [])).map SourceBin.binTag).Nodup := by
    have hkeys : (([('A', cA), ('B', cB)] : List (Char × Nat)).map Prod.fst).Nodup := by
      show (['A', 'B'] : List Char).Nodup
      decide
    exact build_source_bins_tags_nodup hkeys hbuild
  have hperm : (List.insertionSort sb_le (esA ++ (esB ++ []))).Perm (esA ++ (esB ++ [])) :=
    List.perm_insertionSort sb_le _
  have hndsort : ((List.insertionSort sb_le (esA ++ (esB ++ []))).map
      (fun sb => sb.binTag)).Nodup := by
    refine (List.Perm.nodup_iff (List.Perm.map _ hperm)).mpr ?_
    simpa [Function.comp] using hnd
  have hdup : (((List.insertionSort sb_le (esA ++ (esB ++ []))).map
      (fun sb => sb.binTag)).dedup.length
        = (List.insertionSort sb_le (esA ++ (esB ++ []))).length) := by
    rw [List.dedup_eq_self.mpr hndsort, List.length_map]
  have hcountA : (List.insertionSort sb_le (esA ++ (esB ++ []))).countP
      (fun sb => sb.binTag.front == 'A') = cA := by
    rw [List.Perm.countP_eq _ hperm, List.countP_append, List.countP_append]
    have h1 : esA.countP (fun sb => sb.binTag.front == 'A') = esA.length :=
      List.countP_eq_length.mpr (fun e he => by
        have := hfA e he
        simp [this])
    have h2 : esB.countP (fun sb => sb.binTag.front == 'A') = 0 :=
      List.countP_eq_zero.mpr (fun e he => by
        have := hfB e he
        simp [this])
    simp [h1, h2, hlA]
  have hcountB : (List.insertionSort sb_le (esA ++ (esB ++ []))).countP
      (fun sb => sb.binTag.front == 'B') = cB := by
    rw [List.Perm.countP_eq _ hperm, List.countP_append, List.countP_append]
    have h1 : esA.countP (fun sb => sb.binTag.front == 'B') = 0 :=
      List.countP_eq_zero.mpr (fun e he => by
        have := hfA e he
        simp [this])
    have h2 : esB.countP (fun sb => sb.binTag.front == 'B') = esB.length :=
      List.countP_eq_length.mpr (fun e he => by
        have := hfB e he
        simp [this])
    simp [h1, h2, hlB]
  have hall : ([('A', cA), ('B', cB)]).all
      (fun rn => ((List.insertionSort sb_le (esA ++ (esB ++ []))).countP
        (fun sb => sb.binTag.front == rn.1)) ≤ MAX_ORDERS_PER_RACK) = true := by
    refine List.all_eq_true.mpr ?_
    intro rn hrn
    rcases List.mem_cons.mp hrn with h | h
    · subst h
      exact decide_eq_true (by rw [hcountA]; exact hA)
    · rcases List.mem_cons.mp h with h | h
      · subst h
        exact decide_eq_true (by rw [hcountB]; exact hB)
      · cases h
  refine ⟨List.insertionSort sb_le (esA ++ (esB ++ [])), t₂, ?_⟩
  simp only [get_source_bins_for_order]
  rw [hbuild]
  simp only []
  rw [if_pos hdup, if_pos hall]

end RFID

namespace RFID

/-! ### Orders and tasks always succeed with the fixed ids and tags -/

theorem make_order_isSome (i : Nat) (rtag : String) (t : Tape) :
    ∃ sbs t₃, make_order i rtag t = some (⟨i + 1, sbs, rtag⟩, t₃) := by
  obtain ⟨es, t', hg⟩ :=
    get_source_bins_AB_some (choice_one [4, 5, 6] 4 t).1
      (choice_one [4, 5, 6] 4 (choice_one [4, 5, 6] 4 t).2).1
      (choice_one_456_le t) (choice_one_456_le _)
      (choice_one [4, 5, 6] 4 (choice_one [4, 5, 6] 4 t).2).2
  refine ⟨es, t', ?_⟩
  simp only [make_order]
  rw [hg]

theorem make_orders_spec : ∀ (tags : List String) (i : Nat) (t : Tape),
    ∃ os t', make_orders i tags t = some (os, t') ∧
      os.map Order.orderId = List.range' (i + 1) tags.length ∧
      os.map Order.receivingBinTag = tags := by
  intro tags
  induction tags with
  | nil => intro i t; exact ⟨[], t, rfl, rfl, rfl⟩
  | cons rtag rest ih =>
    intro i t
    obtain ⟨sbs, t₁, ho⟩ := make_order_isSome i rtag t
    obtain ⟨os, t₂, hos, hids, hrts⟩ := ih (i + 1) t₁
    refine ⟨⟨i + 1, sbs, rtag⟩ :: os, t₂, ?_, ?_, ?_⟩
    · simp only [make_orders]
      rw [ho]
      simp only []
      rw [hos]
    · simp only [List.map_cons, hids, List.length_cons, List.range'_succ]
    · simp only [List.map_cons, hrts]

theorem get_orders_for_task_spec (t : Tape) :
    ∃ os t', get_orders_for_task t = some (os, t') ∧
      os.map Order.orderId = [1, 2, 3] ∧
      os.map Order.receivingBinTag = ["C11", "C12", "C13"] := by
  obtain ⟨os, t', h, hid, hrt⟩ := make_orders_spec receiving_bin_tags 0 t
  refine ⟨os, t', h, ?_, hrt⟩
  rw [hid]
  rfl

theorem build_tasks_spec : ∀ (count task_id : Nat) (t : Tape),
    ∃ ts t', build_tasks task_id count t = some (ts, t') ∧ ts.length = count := by
  intro count
  induction count with
  | zero => intro task_id t; exact ⟨[], t, rfl, rfl⟩
  | succ n ih =>
    intro task_id t
    obtain ⟨os, t₁, ho, _, _⟩ := get_orders_for_task_spec t
    obtain ⟨ts, t₂, hts, hlen⟩ := ih (task_id + 1) t₁
    refine ⟨⟨task_id, os⟩ :: ts, t₂, ?_, by simp [hlen]⟩
    simp only [build_tasks]
    rw [ho]
    simp only []
    rw [hts]

theorem get_tasks_for_method_spec (a b : Nat) (t : Tape) :
    ∃ tr te t', get_tasks_for_method a b t = some ((tr, te), t') ∧
      tr.length = a ∧ te.length = b := by
  obtain ⟨tr, t₁, h₁, hl₁⟩ := build_tasks_spec a 1 t
  obtain ⟨te, t₂, h₂, hl₂⟩ := build_tasks_spec b (a + 1) t₁
  refine ⟨tr, te, t₂, ?_, hl₁, hl₂⟩
  simp only [get_tasks_for_method]
  rw [h₁]
  simp only []
  rw [h₂]
  simp only []
  rw [if_pos hl₁, if_pos hl₂]

theorem get_tasks_for_method_some_elim {a b : Nat} {t : Tape} {tr te : List Task} {t' : Tape}
    (h : get_tasks_for_method a b t = some ((tr, te), t')) :
    tr.length = a ∧ te.length = b := by
  simp only [get_tasks_for_method] at h
  cases h₁ : build_tasks 1 a t with
  | none => rw [h₁] at h; cases h
  | some r₁ =>
    obtain ⟨tr₁, t₁⟩ := r₁
    rw [h₁] at h
    simp only [] at h
    cases h₂ : build_tasks (a + 1) b t₁ with
    | none => rw [h₂] at h; cases h
    | some r₂ =>
      obtain ⟨te₁, t₂⟩ := r₂
      rw [h₂] at h
      simp only [] at h
      by_cases hc₁ : tr₁.length = a
      · rw [if_pos hc₁] at h
        by_cases hc₂ : te₁.length = b
        · rw [if_pos hc₂] at h
          cases h
          exact ⟨hc₁, hc₂⟩
        · rw [if_neg hc₂] at h; cases h
      · rw [if_neg hc₁] at h; cases h

end RFID

namespace RFID

/-! ### A rack with count zero contributes nothing -/

theorem sample_rack_bins_zero (rack : Char) (t : Tape) :
    sample_rack_bins rack 0 t = some ([], t) := rfl

theorem build_source_bins_zero_middle (p₁ p₂ : List (Char × Nat)) (r : Char) :
    ∀ t, build_source_bins (p₁ ++ (r, 0) :: p₂) t = build_source_bins (p₁ ++ p₂) t := by
  induction p₁ with
  | nil =>
    intro t
    simp only [List.nil_append, build_source_bins, sample_rack_bins_zero]
    cases hb : build_source_bins p₂ t with
    | none => rfl
    | some r2 =>
      obtain ⟨es, t₂⟩ := r2
      rfl
  | cons q rest ih =>
    intro t
    obtain ⟨rq, nq⟩ := q
    simp only [List.cons_append, build_source_bins]
    cases hs : sample_rack_bins rq nq t with
    | none => rfl
    | some rr =>
      obtain ⟨es, t₁⟩ := rr
      simp only [List.append_eq]
      rw [ih t₁]

theorem not_mem_keys_of_nodup_middle {p₁ p₂ : List (Char × Nat)} {r : Char}
    (hk : ((p₁ ++ (r, 0) :: p₂).map Prod.fst).Nodup) :
    r ∉ (p₁ ++ p₂).map Prod.fst := by
  rw [List.map_append, List.map_cons] at hk
  obtain ⟨hn₁, hn₂, hdisj⟩ := List.nodup_append.mp hk
  intro hmem
  rw [List.map_append] at hmem
  rcases List.mem_append.mp hmem with h1 | h2
  · exact hdisj h1 (List.mem_cons_self r _)
  · exact (List.nodup_cons.mp hn₂).1 h2

theorem countP_front_eq_zero {policy : List (Char × Nat)} {t : Tape}
    {sbs : List SourceBin} {t₁ : Tape} {r : Char}
    (hb : build_source_bins policy t = some (sbs, t₁))
    (hr : r ∉ policy.map Prod.fst) :
    (List.insertionSort sb_le sbs).countP (fun sb => sb.binTag.front == r) = 0 := by
  rw [List.Perm.countP_eq _ (List.perm_insertionSort _ _)]
  refine List.countP_eq_zero.mpr ?_
  intro e he hbeq
  obtain ⟨rn, hrn, hfr⟩ := build_source_bins_front hb e he
  have h1 : e.binTag.front = r := by simpa using hbeq
  have h2 : rn.1 = r := by rw [← hfr, h1]
  exact hr (h2 ▸ List.mem_map.mpr ⟨rn, hrn, rfl⟩)

theorem get_source_bins_zero_middle (p₁ p₂ : List (Char × Nat)) (r : Char) (t : Tape)
    (hk : ((p₁ ++ (r, 0) :: p₂).map Prod.fst).Nodup) :
    get_source_bins_for_order (p₁ ++ (r, 0) :: p₂) t
      = get_source_bins_for_order (p₁ ++ p₂) t := by
  simp only [get_source_bins_for_order, build_source_bins_zero_middle]
  cases hb : build_source_bins (p₁ ++ p₂) t with
  | none => rfl
  | some rr =>
    obtain ⟨sbs, t₁⟩ := rr
    simp only []
    have hr : r ∉ (p₁ ++ p₂).map Prod.fst := not_mem_keys_of_nodup_middle hk
    have hcount := countP_front_eq_zero hb hr
    have hall_eq : ((p₁ ++ (r, 0) :: p₂).all
          (fun rn => ((List.insertionSort sb_le sbs).countP
            (fun sb => sb.binTag.front == rn.1)) ≤ MAX_ORDERS_PER_RACK))
        = ((p₁ ++ p₂).all
          (fun rn => ((List.insertionSort sb_le sbs).countP
            (fun sb => sb.binTag.front == rn.1)) ≤ MAX_ORDERS_PER_RACK)) := by
      simp only [List.all_append, List.all_cons]
      rw [hcount]
      simp [MAX_ORDERS_PER_RACK]
    rw [hall_eq]

/-! ### Distinct tags from the dedup-length check -/

theorem pairwise_ne_of_dedup_len {es : List SourceBin}
    (hdup : (es.map (fun sb => sb.binTag)).dedup.length = es.length) :
    List.Pairwise (fun a b : SourceBin => a.binTag ≠ b.binTag) es := by
  have hsub := List.dedup_sublist (es.map (fun sb => sb.binTag))
  have heq : (es.map (fun sb => sb.binTag)).dedup = es.map (fun sb => sb.binTag) :=
    hsub.eq_of_length (by rw [hdup, List.length_map])
  have hnd : (es.map (fun sb => sb.binTag)).Nodup := List.dedup_eq_self.mp heq
  exact List.pairwise_map.mp hnd

end RFID

namespace RFID

/-! ### The claims -/

/-- C1: every source-bin list the sampler returns has pairwise-distinct
`binTag` values: no two entries share a tag. -/
theorem get_source_bins_tags_pairwise_distinct (policy : List (Char × Nat)) (t : Tape)
    (es : List SourceBin) (t' : Tape)
    (h : get_source_bins_for_order policy t = some (es, t')) :
    List.Pairwise (fun a b : SourceBin => a.binTag ≠ b.binTag) es := by
  obtain ⟨_, _, _, hdup, _⟩ := get_source_bins_some_elim h
  exact pairwise_ne_of_dedup_len hdup

theorem get_source_bins_tags_pairwise_distinct_witness :
    get_source_bins_for_order [('A', 2), ('B', 1)] []
        = some ([⟨"A11", 1⟩, ⟨"A12", 1⟩, ⟨"B11", 1⟩], []) ∧
      List.Pairwise (fun a b : SourceBin => a.binTag ≠ b.binTag)
        [(⟨"A11", 1⟩ : SourceBin), ⟨"A12", 1⟩, ⟨"B11", 1⟩] :=
  ⟨by decide, get_source_bins_tags_pairwise_distinct [('A', 2), ('B', 1)] [] _ [] (by decide)⟩

/-- C2: every source-bin list the sampler returns is sorted in strictly
ascending lexicographic order of `binTag`. -/
theorem get_source_bins_sorted_ascending (policy : List (Char × Nat)) (t : Tape)
    (es : List SourceBin) (t' : Tape)
    (h : get_source_bins_for_order policy t = some (es, t')) :
    List.Pairwise (fun a b : SourceBin => a.binTag < b.binTag) es := by
  obtain ⟨sbs, _, hsort, hdup, _⟩ := get_source_bins_some_elim h
  have hle : List.Pairwise sb_le es := by
    rw [hsort]
    exact List.sorted_insertionSort sb_le sbs
  have hne := pairwise_ne_of_dedup_len hdup
  exact (hle.and hne).imp (fun hab => lt_of_le_of_ne (str_le_iff_le.mp hab.1) hab.2)

theorem get_source_bins_sorted_ascending_witness :
    get_source_bins_for_order [('A', 2), ('B', 1)] []
        = some ([⟨"A11", 1⟩, ⟨"A12", 1⟩, ⟨"B11", 1⟩], []) ∧
      List.Pairwise (fun a b : SourceBin => a.binTag < b.binTag)
        [(⟨"A11", 1⟩ : SourceBin), ⟨"A12", 1⟩, ⟨"B11", 1⟩] :=
  ⟨by decide, get_source_bins_sorted_ascending [('A', 2), ('B', 1)] [] _ [] (by decide)⟩

/-- C3: in the with-replacement variant of the sampler (modelled from the
spec, not present in `src/main.py`), aggregating a draw of `n` total bin
visits yields entries whose `numItems` sum to exactly `n`. -/
theorem aggregate_with_replacement_sum_numItems (draws : List String) :
    ((aggregate_with_replacement_draws draws).map SourceBin.numItems).sum = draws.length := by
  unfold aggregate_with_replacement_draws
  rw [List.Perm.sum_eq (List.Perm.map _ (List.perm_insertionSort _ _))]
  rw [List.map_map]
  have hcomp : (SourceBin.numItems ∘ fun tg => SourceBin.mk tg (draws.count tg))
      = fun tg => draws.count tg := rfl
  rw [hcomp]
  exact List.sum_map_count_dedup_eq_length draws

/-- C4: for every rack referenced in the policy, either the sampler
returns nothing (a failed assert), or it returns the sorted entry list and
the number of entries whose tag starts with that rack's label is at most
`MAX_ORDERS_PER_RACK`; hence a result whose per-rack count would exceed
the capacity is never returned, truncated or partial. -/
theorem rack_capacity_enforced (policy : List (Char × Nat)) (t : Tape)
    (sbs : List SourceBin) (t₁ : Tape) (rack : Char) (n : Nat)
    (hmem : (rack, n) ∈ policy)
    (hb : build_source_bins policy t = some (sbs, t₁)) :
    get_source_bins_for_order policy t = none ∨
      (get_source_bins_for_order policy t = some (List.insertionSort sb_le sbs, t₁) ∧
        (List.insertionSort sb_le sbs).countP (fun sb => sb.binTag.front == rack)
          ≤ MAX_ORDERS_PER_RACK) := by
  simp only [get_source_bins_for_order]
  rw [hb]
  simp only []
  by_cases h₁ : ((List.insertionSort sb_le sbs).map (fun sb => sb.binTag)).dedup.length
      = (List.insertionSort sb_le sbs).length
  · rw [if_pos h₁]
    by_cases h₂ : policy.all
        (fun rn => ((List.insertionSort sb_le sbs).countP
          (fun sb => sb.binTag.front == rn.1)) ≤ MAX_ORDERS_PER_RACK) = true
    · rw [if_pos h₂]
      refine Or.inr ⟨rfl, ?_⟩
      have := List.all_eq_true.mp h₂ (rack, n) hmem
      simpa using this
    · rw [if_neg h₂]
      exact Or.inl rfl
  · rw [if_neg h₁]
    exact Or.inl rfl

theorem rack_capacity_enforced_witness :
    (('A', 2) ∈ ([('A', 2), ('B', 1)] : List (Char × Nat))) ∧
    build_source_bins [('A', 2), ('B', 1)] []
        = some ([⟨"A11", 1⟩, ⟨"A12", 1⟩, ⟨"B11", 1⟩], []) ∧
    (get_source_bins_for_order [('A', 2), ('B', 1)] [] = none ∨
      (get_source_bins_for_order [('A', 2), ('B', 1)] []
          = some (List.insertionSort sb_le [⟨"A11", 1⟩, ⟨"A12", 1⟩, ⟨"B11", 1⟩], []) ∧
        (List.insertionSort sb_le [(⟨"A11", 1⟩ : SourceBin), ⟨"A12", 1⟩, ⟨"B11", 1⟩]).countP
            (fun sb => sb.binTag.front == 'A') ≤ MAX_ORDERS_PER_RACK)) :=
  ⟨by decide, by decide,
    rack_capacity_enforced [('A', 2), ('B', 1)] [] _ [] 'A' 2 (by decide) (by decide)⟩

/-- C5: drawing `k` distinct bins without replacement from a rack with 12
bins requires `k ≤ 12`; for any policy entry asking a rack (A or B) for
more than 12 distinct bins, the sampler fails at the sampling call and
returns nothing. -/
theorem without_replacement_requires_enough_bins (policy : List (Char × Nat)) (t : Tape)
    (rack : Char) (n : Nat)
    (hmem : (rack, n) ∈ policy) (hrack : rack = 'A' ∨ rack = 'B') (hn : 12 < n) :
    get_source_bins_for_order policy t = none := by
  have hlen : (BINS.filter (fun b => b.rack == rack)).length = 12 := by
    rcases hrack with h | h <;> subst h <;> decide
  have hb : build_source_bins policy t = none :=
    build_source_bins_eq_none hmem (by rw [hlen]; omega) t
  simp only [get_source_bins_for_order]
  rw [hb]

theorem without_replacement_requires_enough_bins_witness :
    (('A', 13) ∈ ([('A', 13)] : List (Char × Nat))) ∧ 12 < 13 ∧
      get_source_bins_for_order [('A', 13)] [] = none :=
  ⟨by decide, by decide,
    without_replacement_requires_enough_bins [('A', 13)] [] 'A' 13 (by decide)
      (Or.inl rfl) (by decide)⟩

/-- C6: whenever `get_tasks_for_method` returns, the training list has
exactly `num_training_tasks` elements and the testing list exactly
`num_testing_tasks`; and after any shuffle (any permutation of either
list, as the per-method shuffles of `__main__` perform) the counts still
hold. -/
theorem get_tasks_for_method_counts (a b : Nat) (t : Tape)
    (tr te tr₂ te₂ : List Task) (t' : Tape)
    (h : get_tasks_for_method a b t = some ((tr, te), t'))
    (hp₁ : tr₂.Perm tr) (hp₂ : te₂.Perm te) :
    tr.length = a ∧ te.length = b ∧ tr₂.length = a ∧ te₂.length = b := by
  obtain ⟨h1, h2⟩ := get_tasks_for_method_some_elim h
  exact ⟨h1, h2, by rw [hp₁.length_eq, h1], by rw [hp₂.length_eq, h2]⟩

theorem get_tasks_for_method_counts_witness :
    get_tasks_for_method 1 1 []
        = some (([⟨1, orders_tape0⟩], [⟨2, orders_tape0⟩]), []) ∧
      ([(⟨1, orders_tape0⟩ : Task)].length = 1 ∧ [(⟨2, orders_tape0⟩ : Task)].length = 1 ∧
        [(⟨1, orders_tape0⟩ : Task)].length = 1 ∧ [(⟨2, orders_tape0⟩ : Task)].length = 1) :=
  ⟨by decide,
    get_tasks_for_method_counts 1 1 [] [⟨1, orders_tape0⟩] [⟨2, orders_tape0⟩]
      [⟨1, orders_tape0⟩] [⟨2, orders_tape0⟩] [] (by decide)
      (List.Perm.refl _) (List.Perm.refl _)⟩

/-- C7: generation is deterministic in the seed: the whole `__main__`
pipeline is a pure function of the seeded generator's stream, so two runs
whose seeds produce the same stream produce identical task-set
structures. -/
theorem generation_deterministic_in_seed (t₁ t₂ : Tape) (h : t₁ = t₂) :
    main_run t₁ = main_run t₂ := by
  rw [h]

theorem generation_deterministic_in_seed_witness :
    ([] : Tape) = ([] : Tape) ∧ main_run [] = main_run [] :=
  ⟨rfl, generation_deterministic_in_seed [] [] rfl⟩

/-- C8: a per-rack count of 0 is not an error and yields zero entries from
that rack, leaving the other racks' entries unchanged: inserting `(r, 0)`
anywhere into a policy (with distinct rack keys, as a Python dict has)
gives exactly the result of the policy without it, and that result has no
entry whose tag starts with `r`. -/
theorem zero_count_rack_yields_no_entries (p₁ p₂ : List (Char × Nat)) (r : Char) (t : Tape)
    (es : List SourceBin) (t' : Tape)
    (hk : ((p₁ ++ (r, 0) :: p₂).map Prod.fst).Nodup)
    (h : get_source_bins_for_order (p₁ ++ p₂) t = some (es, t')) :
    get_source_bins_for_order (p₁ ++ (r, 0) :: p₂) t = some (es, t') ∧
      es.countP (fun sb => sb.binTag.front == r) = 0 := by
  refine ⟨by rw [get_source_bins_zero_middle p₁ p₂ r t hk, h], ?_⟩
  obtain ⟨sbs, hb, hsort, _, _⟩ := get_source_bins_some_elim h
  rw [hsort]
  exact countP_front_eq_zero hb (not_mem_keys_of_nodup_middle hk)

theorem zero_count_rack_yields_no_entries_witness :
    get_source_bins_for_order [('A', 2)] [] = some ([⟨"A11", 1⟩, ⟨"A12", 1⟩], []) ∧
    (get_source_bins_for_order [('A', 2), ('B', 0)] []
        = some ([⟨"A11", 1⟩, ⟨"A12", 1⟩], []) ∧
      ([(⟨"A11", 1⟩ : SourceBin), ⟨"A12", 1⟩]).countP (fun sb => sb.binTag.front == 'B') = 0) :=
  ⟨by decide,
    zero_count_rack_yields_no_entries [('A', 2)] [] 'B' [] _ [] (by decide) (by decide)⟩

/-- C9: every order list `get_orders_for_task` produces has exactly 3
orders with `orderId` 1, 2, 3 in order and `receivingBinTag` exactly
"C11", "C12", "C13" in that fixed order, independent of the random
draws. -/
theorem orders_fixed_ids_and_receiving_tags (t : Tape) (os : List Order) (t' : Tape)
    (h : get_orders_for_task t = some (os, t')) :
    os.map Order.orderId = [1, 2, 3] ∧
      os.map Order.receivingBinTag = ["C11", "C12", "C13"] := by
  obtain ⟨os₀, t₀, h₀, hid, hrt⟩ := get_orders_for_task_spec t
  rw [h] at h₀
  cases h₀
  exact ⟨hid, hrt⟩

theorem orders_fixed_ids_and_receiving_tags_witness :
    get_orders_for_task [] = some (orders_tape0, []) ∧
      (orders_tape0.map Order.orderId = [1, 2, 3] ∧
        orders_tape0.map Order.receivingBinTag = ["C11", "C12", "C13"]) :=
  ⟨by decide, orders_fixed_ids_and_receiving_tags [] orders_tape0 [] (by decide)⟩

/-- C10: the duplicate-tag assertion of `get_source_bins_for_order` is
unreachable: whenever the per-rack draws succeed on a policy with distinct
rack keys, the sorted entry list has no duplicated tag, so the asserted
condition `len(set(tags)) == len(source_bins)` holds. -/
theorem duplicate_tag_assertion_unreachable (policy : List (Char × Nat)) (t : Tape)
    (sbs : List SourceBin) (t₁ : Tape)
    (hk : (policy.map Prod.fst).Nodup)
    (hb : build_source_bins policy t = some (sbs, t₁)) :
    ((List.insertionSort sb_le sbs).map (fun sb => sb.binTag)).dedup.length
      = (List.insertionSort sb_le sbs).length := by
  have hnd : (sbs.map SourceBin.binTag).Nodup := build_source_bins_tags_nodup hk hb
  have hperm := List.perm_insertionSort sb_le sbs
  have hndsort : ((List.insertionSort sb_le sbs).map (fun sb => sb.binTag)).Nodup := by
    refine (List.Perm.nodup_iff (List.Perm.map _ hperm)).mpr ?_
    simpa [Function.comp] using hnd
  rw [List.dedup_eq_self.mpr hndsort, List.length_map]

theorem duplicate_tag_assertion_unreachable_witness :
    (([('A', 2), ('B', 1)] : List (Char × Nat)).map Prod.fst).Nodup ∧
    build_source_bins [('A', 2), ('B', 1)] []
        = some ([⟨"A11", 1⟩, ⟨"A12", 1⟩, ⟨"B11", 1⟩], []) ∧
    ((List.insertionSort sb_le [(⟨"A11", 1⟩ : SourceBin), ⟨"A12", 1⟩, ⟨"B11", 1⟩]).map
        (fun sb => sb.binTag)).dedup.length
      = (List.insertionSort sb_le [(⟨"A11", 1⟩ : SourceBin), ⟨"A12", 1⟩, ⟨"B11", 1⟩]).length :=
  ⟨by decide, by decide,
    duplicate_tag_assertion_unreachable [('A', 2), ('B', 1)] [] _ [] (by decide) (by decide)⟩

end RFID
